import Mathlib

/- Shallow embedding of scrape_kanto.py (pokecabook-city-kanto).

   Modelling conventions:
   * Python strings are lists of characters (`Str`).
   * Python exceptions are `Except String`: a raised exception is `.error`,
     a normal return is `.ok`.
   * The Playwright browser layer is abstracted as data: an article fetch
     outcome is given as input (`FetchResult`), a heading node carries the
     raw img-src list that `extract_imgs_until_next_heading` would return
     for it, and the listing-crawl phase is abstracted as the input list of
     (url, fetch outcome) pairs fed to the per-article loop.  -/

abbrev Str := List Char

/-- Calendar date as produced by Python `datetime.date(y, m, d)`. -/
structure PyDate where
  year : Nat
  month : Nat
  day : Nat
deriving DecidableEq, Repr

/-- Python `date` comparison `a < b` (lexicographic on year, month, day). -/
def PyDate.ltb (a b : PyDate) : Bool :=
  decide (a.year < b.year) ||
    (decide (a.year = b.year) &&
      (decide (a.month < b.month) ||
        (decide (a.month = b.month) && decide (a.day < b.day))))

/-- The later of two dates under `PyDate.ltb`. -/
def pyMax (a b : PyDate) : PyDate :=
  if PyDate.ltb a b then b else a

/-- Gregorian leap-year rule used by Python `datetime.date`. -/
def isLeapYear (y : Nat) : Bool :=
  y % 4 == 0 && (y % 100 != 0 || y % 400 == 0)

/-- Days in a month, as validated by the `datetime.date` constructor. -/
def daysInMonth (y m : Nat) : Nat :=
  if m = 2 then (if isLeapYear y then 29 else 28)
  else if m = 4 || m = 6 || m = 9 || m = 11 then 30
  else 31

/-- `datetime.date(y, m, d)` succeeds exactly on these arguments
    (MINYEAR = 1, MAXYEAR = 9999); otherwise it raises ValueError. -/
def dateValid (y m d : Nat) : Bool :=
  decide (1 ≤ y) && decide (y ≤ 9999) && decide (1 ≤ m) && decide (m ≤ 12) &&
    decide (1 ≤ d) && decide (d ≤ daysInMonth y m)

/-- Numeric value of a list of decimal digit characters (Python `int`). -/
def digitsToNat (l : Str) : Nat :=
  l.foldl (fun a c => a * 10 + (c.toNat - '0'.toNat)) 0

/-- One anchored attempt of the regex `(\d{4})S(\d{2})S(\d{2})` with
    separator `S` at the start of the list: exactly four digits, the
    separator, two digits, the separator, two digits. -/
def tryMatchSep (sep : Char) : Str → Option (Nat × Nat × Nat)
  | a :: b :: c :: d :: s1 :: e :: f :: s2 :: g :: h :: _ =>
    if a.isDigit && b.isDigit && c.isDigit && d.isDigit && s1 == sep &&
        e.isDigit && f.isDigit && s2 == sep && g.isDigit && h.isDigit then
      some (digitsToNat [a, b, c, d], digitsToNat [e, f], digitsToNat [g, h])
    else none
  | _ => none

/-- `re.search` over the string: the leftmost position where the dated
    pattern matches; embeds `DATE_DOT_RE.search` (sep `'.'`) and
    `DATE_DASH_RE.search` (sep `'-'`). -/
def searchSep (sep : Char) : Str → Option (Nat × Nat × Nat)
  | [] => none
  | c :: rest =>
    match tryMatchSep sep (c :: rest) with
    | some r => some r
    | none => searchSep sep rest

/-- Embeds `parse_yyyymmdd_dot`: empty input and no-match return None
    (`.ok none`); a match runs `date(y, mo, d)`, which raises ValueError
    (`.error`) when the digit groups are not a valid calendar date. -/
def parse_yyyymmdd_dot (s : Str) : Except String (Option PyDate) :=
  if s = [] then .ok none
  else
    match searchSep '.' s with
    | none => .ok none
    | some (y, mo, d) =>
      if dateValid y mo d then .ok (some ⟨y, mo, d⟩) else .error "ValueError"

/-- Embeds `parse_yyyymmdd_dash`; same structure with separator `'-'`. -/
def parse_yyyymmdd_dash (s : Str) : Except String (Option PyDate) :=
  if s = [] then .ok none
  else
    match searchSep '-' s with
    | none => .ok none
    | some (y, mo, d) =>
      if dateValid y mo d then .ok (some ⟨y, mo, d⟩) else .error "ValueError"

/-- Python `str.strip()`: remove leading and trailing whitespace. -/
def stripChars (l : Str) : Str :=
  ((l.dropWhile Char.isWhitespace).reverse.dropWhile Char.isWhitespace).reverse

/-- The date-marker element (`page.locator("time").first`): its optional
    `datetime` attribute and its inner text. -/
structure TimeEl where
  datetimeAttr : Option Str
  innerText : Str

/-- The parts of a fetched article page read by the date chain: the time
    element when one exists, and the body inner text. -/
structure ArticlePage where
  timeEl : Option TimeEl
  bodyText : Str

/-- Python `x or y` over two date-parse results, with exception
    propagation: an exception in `x` propagates, a date in `x` wins,
    otherwise the result is `y`. -/
def orElseE (x y : Except String (Option PyDate)) : Except String (Option PyDate) :=
  match x with
  | .error e => .error e
  | .ok (some d) => .ok (some d)
  | .ok none => y

/-- Embeds `parse_article_date_from_article`: when a time element exists,
    try its `datetime` attribute (dash pattern, then dot pattern), then its
    inner text (dot, then dash); finally the body text (dot, then dash).
    Early `return d` statements become `orElseE` chaining. -/
def parse_article_date_from_article (pg : ArticlePage) : Except String (Option PyDate) :=
  match pg.timeEl with
  | some t =>
    orElseE
      (match t.datetimeAttr with
       | some a =>
         if a = [] then .ok none
         else orElseE (parse_yyyymmdd_dash a) (parse_yyyymmdd_dot a)
       | none => .ok none)
      (orElseE
        (orElseE (parse_yyyymmdd_dot (stripChars t.innerText))
          (parse_yyyymmdd_dash (stripChars t.innerText)))
        (orElseE (parse_yyyymmdd_dot pg.bodyText) (parse_yyyymmdd_dash pg.bodyText)))
  | none =>
    orElseE (parse_yyyymmdd_dot pg.bodyText) (parse_yyyymmdd_dash pg.bodyText)

/-- The attribute strategy of the date chain in isolation (the part of
    `parse_article_date_from_article` that reads `time[datetime]`). -/
def attrStrategy (pg : ArticlePage) : Except String (Option PyDate) :=
  match pg.timeEl with
  | some t =>
    match t.datetimeAttr with
    | some a =>
      if a = [] then .ok none
      else orElseE (parse_yyyymmdd_dash a) (parse_yyyymmdd_dot a)
    | none => .ok none
  | none => .ok none

/-- The time-element inner-text strategy of the date chain in isolation. -/
def timeTextStrategy (pg : ArticlePage) : Except String (Option PyDate) :=
  match pg.timeEl with
  | some t =>
    orElseE (parse_yyyymmdd_dot (stripChars t.innerText))
      (parse_yyyymmdd_dash (stripChars t.innerText))
  | none => .ok none

/-- Modelled from the claim (C9) for comparison: the priority order the
    claim states — attribute dash, attribute dot, then the body text with
    the same two patterns in the same order (dash, then dot). -/
def parse_article_date_claim_order (pg : ArticlePage) : Except String (Option PyDate) :=
  orElseE (attrStrategy pg)
    (orElseE (parse_yyyymmdd_dash pg.bodyText) (parse_yyyymmdd_dot pg.bodyText))

/-- Embeds `PREF_RE.search(text).group(1)` for the regex `（([^）]+)）`:
    the leftmost full-width open paren that is followed, after at least one
    character none of which is a close paren, by a full-width close paren;
    the result is the captured group. -/
def prefSearch : Str → Option Str
  | [] => none
  | c :: rest =>
    if c = '（' then
      let grp := rest.takeWhile (fun x => decide (x ≠ '）'))
      if grp ≠ [] ∧ grp.length < rest.length then some grp else prefSearch rest
    else prefSearch rest

/-- The `KANTO_PREFS` whitelist of the source. -/
def KANTO_PREFS : List Str :=
  ["東京".toList, "神奈川".toList, "千葉".toList, "埼玉".toList,
   "茨城".toList, "栃木".toList, "群馬".toList]

/-- Query-string-stripped dedup key: `u.split("?", 1)[0]`. -/
def urlKey (u : Str) : Str := u.takeWhile (fun c => decide (c ≠ '?'))

/-- The per-entry filter pass of `clean_image_urls`: drop falsy entries,
    strip whitespace, drop inline-encoded (`data:`) payloads, keep only
    entries beginning with an http or https scheme. -/
def keepUrl (u : Str) : Option Str :=
  if u = [] then none
  else if "data:".toList.isPrefixOf (stripChars u) then none
  else if "http://".toList.isPrefixOf (stripChars u) ||
      "https://".toList.isPrefixOf (stripChars u) then some (stripChars u)
  else none

/-- The second pass of `clean_image_urls`: first occurrence of each
    `urlKey` wins, original order preserved (`seen` set plus output list). -/
def dedupeByKey (seen : List Str) : List Str → List Str
  | [] => []
  | u :: rest =>
    if urlKey u ∈ seen then dedupeByKey seen rest
    else u :: dedupeByKey (urlKey u :: seen) rest

/-- Embeds `clean_image_urls`. -/
def clean_image_urls (urls : List Str) : List Str :=
  dedupeByKey [] (urls.filterMap keepUrl)

/-- A heading node (h2 or h4) of an article, abstracted to what the loop
    reads from it: its inner text, and the raw img src list that
    `extract_imgs_until_next_heading` returns for its section. -/
structure Heading where
  text : Str
  imgs : List Str
deriving DecidableEq

/-- A successfully fetched article: the parts read by the date chain plus
    the `h2, h4` heading list in document order. -/
structure ArticleContent where
  page : ArticlePage
  headings : List Heading

/-- Outcome of `page.goto(article_url, ...)`: a fetched document, or a
    raised navigation/timeout exception. -/
inductive FetchResult where
  | ok : ArticleContent → FetchResult
  | failure : String → FetchResult

/-- One output dict appended to `results` in `scrape_kanto_top8`. -/
structure Record where
  article_date : PyDate
  page : Str
  title : Str
  pref : Str
  images_top8 : List Str
  images_found : Nat
  dup_same_page : Bool
deriving DecidableEq

/-- The mutable loop state of `scrape_kanto_top8`: the `results`
    accumulator, `latest_seen`, and the `dup_check` set (modelled as a
    list queried by membership). -/
structure ScrapeState where
  results : List Record
  latest_seen : Option PyDate
  dup_check : List (Str × Str)

/-- Continuation of the heading-loop body once the region search result is
    known: check the whitelist, clean the section's images, skip when
    empty, otherwise append a Record and add the (article url, heading
    text) key to the dedup set. -/
def processHeadingPref (url : Str) (d : PyDate) (hd : Heading) (po : Option Str)
    (st : ScrapeState) : ScrapeState :=
  match po with
  | none => st
  | some grp =>
    if stripChars grp ∈ KANTO_PREFS then
      if clean_image_urls hd.imgs = [] then st
      else
        { results := st.results ++
            [⟨d, url, stripChars hd.text, stripChars grp,
              (clean_image_urls hd.imgs).take 8, (clean_image_urls hd.imgs).length,
              decide ((url, stripChars hd.text) ∈ st.dup_check)⟩],
          latest_seen := st.latest_seen,
          dup_check := (url, stripChars hd.text) :: st.dup_check }
    else st

/-- The body of the inner `for j in range(headings.count())` loop for one
    heading. -/
def processHeading (url : Str) (d : PyDate) (hd : Heading) (st : ScrapeState) : ScrapeState :=
  processHeadingPref url d hd (prefSearch (stripChars hd.text)) st

/-- The inner heading loop over all headings of one article. -/
def processHeadings (url : Str) (d : PyDate) (hs : List Heading) (st : ScrapeState) : ScrapeState :=
  hs.foldl (fun s hd => processHeading url d hd s) st

/-- The `latest_seen` update: `if latest_seen is None or article_date >
    latest_seen: latest_seen = article_date`. -/
def updateLatest (cur : Option PyDate) (d : PyDate) : Option PyDate :=
  match cur with
  | none => some d
  | some l => if PyDate.ltb l d then some d else some l

/-- Continuation of the article-loop body once the date-chain outcome is
    known: a raised exception propagates; an absent date skips the
    article; otherwise `latest_seen` is updated, the since-cutoff is
    applied, and in-window articles run the heading loop. -/
def processArticleDate (since : PyDate) (url : Str) (headings : List Heading)
    (pd : Except String (Option PyDate)) (st : ScrapeState) : Except String ScrapeState :=
  match pd with
  | .error e => .error e
  | .ok none => .ok st
  | .ok (some d) =>
    if PyDate.ltb d since then .ok { st with latest_seen := updateLatest st.latest_seen d }
    else
      .ok (processHeadings url d headings { st with latest_seen := updateLatest st.latest_seen d })

/-- One iteration of the `for article_url in article_urls_all` loop: a
    navigation failure raises (there is no try/except in the source loop);
    otherwise the fetched document's date chain runs and the rest of the
    body follows from its outcome. -/
def processArticle (since : PyDate) (url : Str) (fr : FetchResult) (st : ScrapeState) :
    Except String ScrapeState :=
  match fr with
  | .failure e => .error e
  | .ok content =>
    processArticleDate since url content.headings
      (parse_article_date_from_article content.page) st

/-- The whole per-article loop, threading the state and propagating any
    raised exception (which aborts the run, as in the source). -/
def scrape_loop (since : PyDate) : List (Str × FetchResult) → ScrapeState → Except String ScrapeState
  | [], st => .ok st
  | (url, fr) :: rest, st =>
    match processArticle since url fr st with
    | .error e => .error e
    | .ok st' => scrape_loop since rest st'

/-- Embeds `scrape_kanto_top8` from the point where the discovered article
    URL list is fixed: run the per-article loop from the empty state and
    return `(results, latest_seen)`. -/
def scrape_kanto_top8 (since : PyDate) (articles : List (Str × FetchResult)) :
    Except String (List Record × Option PyDate) :=
  match scrape_loop since articles ⟨[], none, []⟩ with
  | .error e => .error e
  | .ok st => .ok (st.results, st.latest_seen)

/-- The emission condition of the heading loop: a bracketed region code
    exists, its stripped text is whitelisted, and the cleaned image list is
    non-empty. -/
def qualifies (hd : Heading) : Bool :=
  match prefSearch (stripChars hd.text) with
  | none => false
  | some grp =>
    decide (stripChars grp ∈ KANTO_PREFS) && decide (clean_image_urls hd.imgs ≠ [])

/-- The fields of a Record that do not depend on the dedup state. -/
def recProj (r : Record) : PyDate × Str × Str × Str × List Str × Nat :=
  (r.article_date, r.page, r.title, r.pref, r.images_top8, r.images_found)

/-- The stripped captured region code of a heading (empty when none). -/
def prefOf (hd : Heading) : Str :=
  match prefSearch (stripChars hd.text) with
  | some grp => stripChars grp
  | none => []

/-- The state-independent Record fields a qualifying heading produces. -/
def emitProj (url : Str) (d : PyDate) (hd : Heading) : PyDate × Str × Str × Str × List Str × Nat :=
  (d, url, stripChars hd.text, prefOf hd,
   (clean_image_urls hd.imgs).take 8, (clean_image_urls hd.imgs).length)

/-- Correct dup flags relative to a list of earlier records: each record's
    `dup_same_page` is true exactly when some earlier record (the records
    before it, after `earlier`) shares its (page, title) pair. -/
def OKFrom : List Record → List Record → Prop
  | _, [] => True
  | e, r :: rest =>
    (r.dup_same_page = true ↔ ∃ p ∈ e, p.page = r.page ∧ p.title = r.title) ∧
      OKFrom (e ++ [r]) rest

/-- Loop-state invariant tying the dedup set to the emitted records. -/
def InvState (st : ScrapeState) : Prop :=
  (∀ k : Str × Str, k ∈ st.dup_check ↔ ∃ r ∈ st.results, (r.page, r.title) = k) ∧
    OKFrom [] st.results

/-- Provenance invariant: every record's image fields come from one
    cleaned image list, truncated to 8. -/
def ProvState (st : ScrapeState) : Prop :=
  ∀ r ∈ st.results, ∃ raw,
    r.images_top8 = (clean_image_urls raw).take 8 ∧
      r.images_found = (clean_image_urls raw).length

/-- The Record literal appended for a qualifying heading with captured
    region group `grp`. -/
def emitRecord (url : Str) (d : PyDate) (hd : Heading) (grp : Str) (st : ScrapeState) : Record :=
  ⟨d, url, stripChars hd.text, stripChars grp,
   (clean_image_urls hd.imgs).take 8, (clean_image_urls hd.imgs).length,
   decide ((url, stripChars hd.text) ∈ st.dup_check)⟩

/-- Concrete cutoff used by the concrete runs below. -/
def cSince : PyDate := ⟨2024, 1, 1⟩

/-- The initial loop state of a run. -/
def initState : ScrapeState := ⟨[], none, []⟩

/-- A concrete in-window article: one whitelisted heading, one image. -/
def goodContent : ArticleContent :=
  { page := { timeEl := none, bodyText := "2024.03.10".toList },
    headings := [⟨"（東京）A".toList, ["http://a".toList]⟩] }

/-- The record the run extracts from `goodContent` at url `u1`. -/
def demoRecord : Record :=
  ⟨⟨2024, 3, 10⟩, "u1".toList, "（東京）A".toList, "東京".toList,
   ["http://a".toList], 1, false⟩

/-- A concrete article whose date cannot be parsed. -/
def noDateContent : ArticleContent :=
  { page := { timeEl := none, bodyText := "no date here".toList }, headings := [] }

/-- A concrete in-window article with a whitelisted heading whose section
    has no images. -/
def noImgContent : ArticleContent :=
  { page := { timeEl := none, bodyText := "2024.03.10".toList },
    headings := [⟨"（東京）B".toList, []⟩] }

/-- A concrete in-window article with the same whitelisted heading twice. -/
def dupContent : ArticleContent :=
  { page := { timeEl := none, bodyText := "2024.03.10".toList },
    headings := [⟨"（東京）A".toList, ["http://a".toList]⟩,
                 ⟨"（東京）A".toList, ["http://a".toList]⟩] }

/-- First record of the `dupContent` run at url `u5`. -/
def dupR0 : Record :=
  ⟨⟨2024, 3, 10⟩, "u5".toList, "（東京）A".toList, "東京".toList,
   ["http://a".toList], 1, false⟩

/-- Second record of the `dupContent` run at url `u5`: same pair, flagged. -/
def dupR1 : Record :=
  ⟨⟨2024, 3, 10⟩, "u5".toList, "（東京）A".toList, "東京".toList,
   ["http://a".toList], 1, true⟩

/-- A concrete article older than `cSince`. -/
def oldContent : ArticleContent :=
  { page := { timeEl := none, bodyText := "2023.01.05".toList }, headings := [] }

/-- A concrete raw url list exercising every branch of the cleaner. -/
def demoUrls : List Str :=
  ["http://x?a".toList, "http://x?b".toList, " https://y ".toList,
   "data:abc".toList, "ftp://z".toList, []]

/-- A body text in which the dash pattern matches earlier text than the
    dot pattern, with no time element. -/
def c9Page : ArticlePage :=
  { timeEl := none, bodyText := "2023-05-06 2024.01.02".toList }

/-- An article page whose time element carries a dash-dated attribute. -/
def c9AttrPage : ArticlePage :=
  { timeEl := some { datetimeAttr := some "2024-05-06".toList, innerText := [] },
    bodyText := [] }

example : scrape_kanto_top8 cSince [("u1".toList, .ok goodContent)] =
    .ok ([demoRecord], some ⟨2024, 3, 10⟩) := rfl

example : scrape_kanto_top8 cSince [("u5".toList, .ok dupContent)] =
    .ok ([dupR0, dupR1], some ⟨2024, 3, 10⟩) := rfl

example : parse_article_date_from_article noDateContent.page = .ok none := rfl

example : clean_image_urls demoUrls = ["http://x?a".toList, "https://y".toList] := rfl

example : parse_yyyymmdd_dot "2024.13.40".toList = .error "ValueError" := rfl

example : scrape_kanto_top8 cSince [("u3".toList, .ok noImgContent)] =
    .ok ([], some ⟨2024, 3, 10⟩) := rfl

theorem ltb_irrefl (a : PyDate) : PyDate.ltb a a = false := by
  simp [PyDate.ltb]

theorem ltb_asymm {a b : PyDate} (h : PyDate.ltb a b = true) : PyDate.ltb b a = false := by
  simp only [PyDate.ltb, Bool.or_eq_true, Bool.and_eq_true, decide_eq_true_eq] at h
  simp only [PyDate.ltb, Bool.or_eq_false_iff, Bool.and_eq_false_iff,
    decide_eq_false_iff_not]
  omega

theorem pyMax_spec (l d : PyDate) :
    PyDate.ltb (pyMax l d) l = false ∧ PyDate.ltb (pyMax l d) d = false ∧
      (pyMax l d = l ∨ pyMax l d = d) := by
  unfold pyMax
  cases h : PyDate.ltb l d with
  | true => simp [ltb_asymm h, ltb_irrefl]
  | false => simp [h, ltb_irrefl]

theorem dropWhile_head_false {α : Type} {p : α → Bool} :
    ∀ {l : List α} {c : α} {rest : List α}, l.dropWhile p = c :: rest → p c = false := by
  intro l
  induction l with
  | nil => intro c rest h; simp [List.dropWhile] at h
  | cons a l ih =>
    intro c rest h
    rw [List.dropWhile_cons] at h
    by_cases hp : p a = true
    · rw [if_pos hp] at h; exact ih h
    · rw [if_neg hp] at h
      cases h
      simpa using hp

theorem dropWhile_dropWhile {α : Type} (p : α → Bool) (l : List α) :
    (l.dropWhile p).dropWhile p = l.dropWhile p := by
  induction l with
  | nil => rfl
  | cons a l ih =>
    rw [List.dropWhile_cons]
    by_cases hp : p a = true
    · rw [if_pos hp]; exact ih
    · rw [if_neg hp, List.dropWhile_cons, if_neg hp]

theorem dropWhile_reverse_head {α : Type} (p : α → Bool) :
    ∀ l : List α, l.dropWhile p ≠ [] → (l.dropWhile p).reverse.head? = l.reverse.head? := by
  intro l
  induction l with
  | nil => intro h; simp [List.dropWhile] at h
  | cons a l ih =>
    intro h
    rw [List.dropWhile_cons] at h ⊢
    by_cases hp : p a = true
    · rw [if_pos hp] at h ⊢
      have hl : l ≠ [] := by
        intro he; subst he; simp [List.dropWhile] at h
      rw [ih h, List.reverse_cons, List.head?_append]
      cases hr : l.reverse with
      | nil => exact absurd (by simpa using congrArg List.reverse hr) hl
      | cons b rb => simp
    · rw [if_neg hp]

theorem rtrim_fix {α : Type} (p : α → Bool) (t : List α)
    (hhead : ∀ c, t.head? = some c → p c = false) :
    ((t.reverse.dropWhile p).reverse).dropWhile p = (t.reverse.dropWhile p).reverse := by
  cases hrv : (t.reverse.dropWhile p).reverse with
  | nil => rfl
  | cons b rb =>
    have hne : t.reverse.dropWhile p ≠ [] := by
      intro h0; rw [h0] at hrv; simp at hrv
    have h1 := dropWhile_reverse_head p t.reverse hne
    rw [List.reverse_reverse, hrv] at h1
    have hb : p b = false := hhead b (by simpa using h1.symm)
    simp [List.dropWhile_cons, hb]

theorem stripChars_idem (l : Str) : stripChars (stripChars l) = stripChars l := by
  have hhead : ∀ c, (l.dropWhile Char.isWhitespace).head? = some c →
      Char.isWhitespace c = false := by
    intro c hc
    cases ht : l.dropWhile Char.isWhitespace with
    | nil => rw [ht] at hc; simp at hc
    | cons c0 t0 =>
      rw [ht] at hc
      simp at hc
      exact hc ▸ dropWhile_head_false ht
  unfold stripChars
  rw [rtrim_fix _ _ hhead, List.reverse_reverse, dropWhile_dropWhile]

theorem dedupe_sublist (seen : List Str) (l : List Str) : (dedupeByKey seen l).Sublist l := by
  induction l generalizing seen with
  | nil => simp [dedupeByKey]
  | cons u rest ih =>
    rw [dedupeByKey]
    by_cases h : urlKey u ∈ seen
    · rw [if_pos h]; exact (ih seen).cons u
    · rw [if_neg h]; exact (ih _).cons₂ u

theorem dedupe_good (seen : List Str) (l : List Str) :
    (dedupeByKey seen l).Pairwise (fun a b => urlKey a ≠ urlKey b) ∧
      ∀ u ∈ dedupeByKey seen l, urlKey u ∉ seen := by
  induction l generalizing seen with
  | nil => simp [dedupeByKey]
  | cons u rest ih =>
    rw [dedupeByKey]
    by_cases h : urlKey u ∈ seen
    · rw [if_pos h]; exact ih seen
    · rw [if_neg h]
      obtain ⟨ihp, ihm⟩ := ih (urlKey u :: seen)
      refine ⟨List.pairwise_cons.mpr ⟨fun b hb => ?_, ihp⟩, fun v hv => ?_⟩
      · have := ihm b hb
        simp only [List.mem_cons, not_or] at this
        exact fun he => this.1 he.symm
      · rcases List.mem_cons.mp hv with rfl | hv'
        · exact h
        · have := ihm v hv'
          simp only [List.mem_cons, not_or] at this
          exact this.2

theorem dedupe_eq_self (seen : List Str) (l : List Str)
    (hp : l.Pairwise (fun a b => urlKey a ≠ urlKey b))
    (hm : ∀ u ∈ l, urlKey u ∉ seen) : dedupeByKey seen l = l := by
  induction l generalizing seen with
  | nil => simp [dedupeByKey]
  | cons u rest ih =>
    rw [dedupeByKey, if_neg (hm u (by simp))]
    congr 1
    apply ih
    · exact (List.pairwise_cons.mp hp).2
    · intro v hv
      simp only [List.mem_cons, not_or]
      exact ⟨fun he => (List.pairwise_cons.mp hp).1 v hv he.symm,
        hm v (List.mem_cons_of_mem _ hv)⟩

theorem keepUrl_some {v u : Str} (h : keepUrl v = some u) :
    u = stripChars v ∧ "data:".toList.isPrefixOf u = false ∧
      ("http://".toList.isPrefixOf u = true ∨ "https://".toList.isPrefixOf u = true) := by
  unfold keepUrl at h
  split at h
  · exact absurd h (by simp)
  · split at h
    · exact absurd h (by simp)
    · rename_i hdata
      split at h
      · rename_i hhttp
        obtain rfl : u = stripChars v := (Option.some.inj h).symm
        refine ⟨rfl, ?_, (Bool.or_eq_true _ _) ▸ hhttp⟩
        revert hdata
        cases "data:".toList.isPrefixOf (stripChars v) <;> simp
      · exact absurd h (by simp)

theorem filterMap_keepUrl_id {l : List Str} (h : ∀ u ∈ l, keepUrl u = some u) :
    l.filterMap keepUrl = l := by
  induction l with
  | nil => rfl
  | cons u rest ih =>
    rw [List.filterMap_cons]
    simp only [h u (by simp)]
    rw [ih (fun v hv => h v (by simp [hv]))]

theorem clean_mem_props {urls : List Str} {u : Str} (h : u ∈ clean_image_urls urls) :
    stripChars u = u ∧ "data:".toList.isPrefixOf u = false ∧
      ("http://".toList.isPrefixOf u = true ∨ "https://".toList.isPrefixOf u = true) := by
  have hmem : u ∈ urls.filterMap keepUrl :=
    (dedupe_sublist [] (urls.filterMap keepUrl)).subset h
  obtain ⟨v, _, hkv⟩ := List.mem_filterMap.mp hmem
  obtain ⟨he, hd, hh⟩ := keepUrl_some hkv
  subst he
  exact ⟨stripChars_idem v, hd, hh⟩

theorem keepUrl_fixpoint {u : Str} (hs : stripChars u = u)
    (hd : "data:".toList.isPrefixOf u = false)
    (hh : "http://".toList.isPrefixOf u = true ∨ "https://".toList.isPrefixOf u = true) :
    keepUrl u = some u := by
  have hne : u ≠ [] := by
    intro h0; subst h0
    rcases hh with h | h <;> exact absurd h (by decide)
  have hor : ("http://".toList.isPrefixOf u || "https://".toList.isPrefixOf u) = true := by
    rcases hh with h | h
    · rw [h]; rfl
    · rw [h]; exact Bool.or_true _
  unfold keepUrl
  rw [hs, if_neg hne, if_neg (by rw [hd]; exact Bool.false_ne_true), if_pos hor]

/-- C4: for every input sequence, the output of `clean_image_urls` has
    pairwise distinct url keys (the part before the first `?`), is a
    subsequence of the per-entry filter pass (so first-seen order is
    preserved), and contains no `data:` entry and no entry that does not
    begin with `http://` or `https://`. -/
theorem clean_image_urls_spec (urls : List Str) :
    ((clean_image_urls urls).map urlKey).Nodup ∧
      (clean_image_urls urls).Sublist (urls.filterMap keepUrl) ∧
      ∀ u ∈ clean_image_urls urls,
        "data:".toList.isPrefixOf u = false ∧
          ("http://".toList.isPrefixOf u = true ∨ "https://".toList.isPrefixOf u = true) := by
  refine ⟨?_, dedupe_sublist [] _, fun u hu => ?_⟩
  · exact List.pairwise_map.mpr (dedupe_good [] (urls.filterMap keepUrl)).1
  · obtain ⟨_, hd, hh⟩ := clean_mem_props hu
    exact ⟨hd, hh⟩

/-- C4 witness: the specification evaluated on a concrete url list. -/
theorem clean_image_urls_spec_witness :
    ((clean_image_urls demoUrls).map urlKey).Nodup ∧
      (clean_image_urls demoUrls).Sublist (demoUrls.filterMap keepUrl) ∧
      ∀ u ∈ clean_image_urls demoUrls,
        "data:".toList.isPrefixOf u = false ∧
          ("http://".toList.isPrefixOf u = true ∨ "https://".toList.isPrefixOf u = true) :=
  clean_image_urls_spec demoUrls

/-- C10: `clean_image_urls` is idempotent - cleaning its own output
    returns that output unchanged. -/
theorem clean_image_urls_idem (urls : List Str) :
    clean_image_urls (clean_image_urls urls) = clean_image_urls urls := by
  have hfix : ∀ u ∈ clean_image_urls urls, keepUrl u = some u := by
    intro u hu
    obtain ⟨hs, hd, hh⟩ := clean_mem_props hu
    exact keepUrl_fixpoint hs hd hh
  show dedupeByKey [] ((clean_image_urls urls).filterMap keepUrl) = clean_image_urls urls
  rw [filterMap_keepUrl_id hfix]
  exact dedupe_eq_self [] _ (dedupe_good [] _).1 (by simp)

/-- C2 (code bug): the claim says the date parsers never raise, but a
    digit-group match denoting an invalid calendar date makes the
    `date(y, mo, d)` constructor raise ValueError, which propagates out of
    the parser: on "2024.13.40" and "2024-13-40" both parsers raise instead
    of returning a date or the absent value. A valid match and a
    non-matching input do return normally. -/
theorem parse_date_invalid_raises :
    parse_yyyymmdd_dot "2024.13.40".toList = .error "ValueError" ∧
      parse_yyyymmdd_dash "2024-13-40".toList = .error "ValueError" ∧
      parse_yyyymmdd_dot "2024.03.10".toList = .ok (some ⟨2024, 3, 10⟩) ∧
      parse_yyyymmdd_dash "no date here".toList = .ok none :=
  ⟨rfl, rfl, rfl, rfl⟩

/-- C9 counterexample: on `c9Page` the code scans the body with the dot
    pattern first and returns 2024-01-02, while the claim's order (the
    attribute order dash-then-dot repeated on the body) would return
    2023-05-06; the two dates differ. -/
theorem parse_article_date_order_counterexample :
    parse_article_date_from_article c9Page = .ok (some ⟨2024, 1, 2⟩) ∧
      parse_article_date_claim_order c9Page = .ok (some ⟨2023, 5, 6⟩) ∧
      (⟨2024, 1, 2⟩ : PyDate) ≠ ⟨2023, 5, 6⟩ :=
  ⟨rfl, rfl, by decide⟩

theorem orElseE_ok_none (x y : Except String (Option PyDate)) (h : x = .ok none) :
    orElseE x y = y := by rw [h]; rfl

theorem parse_article_date_decompose (pg : ArticlePage) :
    parse_article_date_from_article pg =
      orElseE (attrStrategy pg)
        (orElseE (timeTextStrategy pg)
          (orElseE (parse_yyyymmdd_dot pg.bodyText) (parse_yyyymmdd_dash pg.bodyText))) := by
  obtain ⟨te, body⟩ := pg
  cases te <;> rfl

/-- C9 (amended): the date chain tries, in order: (a) the attribute dash
    pattern, (b) the attribute dot pattern, (c) the time element's inner
    text with the dot then the dash pattern, (d) the body text with the dot
    then the dash pattern; the first success wins, and when every strategy
    misses the result is that of the final dash scan over the body (absent
    when it too misses). -/
theorem parse_article_date_priority (pg : ArticlePage) :
    (∀ t a d, pg.timeEl = some t → t.datetimeAttr = some a → a ≠ [] →
       parse_yyyymmdd_dash a = .ok (some d) →
       parse_article_date_from_article pg = .ok (some d)) ∧
    (∀ t a d, pg.timeEl = some t → t.datetimeAttr = some a → a ≠ [] →
       parse_yyyymmdd_dash a = .ok none → parse_yyyymmdd_dot a = .ok (some d) →
       parse_article_date_from_article pg = .ok (some d)) ∧
    (∀ t d, pg.timeEl = some t → attrStrategy pg = .ok none →
       parse_yyyymmdd_dot (stripChars t.innerText) = .ok (some d) →
       parse_article_date_from_article pg = .ok (some d)) ∧
    (∀ t d, pg.timeEl = some t → attrStrategy pg = .ok none →
       parse_yyyymmdd_dot (stripChars t.innerText) = .ok none →
       parse_yyyymmdd_dash (stripChars t.innerText) = .ok (some d) →
       parse_article_date_from_article pg = .ok (some d)) ∧
    (∀ d, attrStrategy pg = .ok none → timeTextStrategy pg = .ok none →
       parse_yyyymmdd_dot pg.bodyText = .ok (some d) →
       parse_article_date_from_article pg = .ok (some d)) ∧
    (attrStrategy pg = .ok none → timeTextStrategy pg = .ok none →
       parse_yyyymmdd_dot pg.bodyText = .ok none →
       parse_article_date_from_article pg = parse_yyyymmdd_dash pg.bodyText) := by
  refine ⟨?_, ?_, ?_, ?_, ?_, ?_⟩
  · intro t a d ht ha hne hdash
    have hattr : attrStrategy pg = Except.ok (some d) := by
      simp only [attrStrategy, ht, ha, if_neg hne, hdash]
      rfl
    rw [parse_article_date_decompose, hattr]
    rfl
  · intro t a d ht ha hne hdash hdot
    have hattr : attrStrategy pg = Except.ok (some d) := by
      simp only [attrStrategy, ht, ha, if_neg hne, hdash, orElseE, hdot]
    rw [parse_article_date_decompose, hattr]
    rfl
  · intro t d ht hattr hdot
    have htt : timeTextStrategy pg = Except.ok (some d) := by
      simp only [timeTextStrategy, ht, hdot]
      rfl
    rw [parse_article_date_decompose, orElseE_ok_none _ _ hattr, htt]
    rfl
  · intro t d ht hattr hdot hdash
    have htt : timeTextStrategy pg = Except.ok (some d) := by
      simp only [timeTextStrategy, ht, hdot, orElseE, hdash]
    rw [parse_article_date_decompose, orElseE_ok_none _ _ hattr, htt]
    rfl
  · intro d hattr htt hdot
    rw [parse_article_date_decompose, orElseE_ok_none _ _ hattr,
      orElseE_ok_none _ _ htt, hdot]
    rfl
  · intro hattr htt hdot
    rw [parse_article_date_decompose, orElseE_ok_none _ _ hattr,
      orElseE_ok_none _ _ htt, orElseE_ok_none _ _ hdot]

theorem processHeading_eq (url : Str) (d : PyDate) (hd : Heading) (st : ScrapeState) :
    processHeading url d hd st =
      processHeadingPref url d hd (prefSearch (stripChars hd.text)) st := rfl

theorem processHeadingPref_some_eq (url : Str) (d : PyDate) (hd : Heading) (grp : Str)
    (st : ScrapeState) :
    processHeadingPref url d hd (some grp) st =
      if stripChars grp ∈ KANTO_PREFS then
        if clean_image_urls hd.imgs = [] then st
        else
          { results := st.results ++
              [⟨d, url, stripChars hd.text, stripChars grp,
                (clean_image_urls hd.imgs).take 8, (clean_image_urls hd.imgs).length,
                decide ((url, stripChars hd.text) ∈ st.dup_check)⟩],
            latest_seen := st.latest_seen,
            dup_check := (url, stripChars hd.text) :: st.dup_check }
      else st := rfl

theorem processArticle_ok_eq (since : PyDate) (url : Str) (content : ArticleContent)
    (st : ScrapeState) :
    processArticle since url (.ok content) st =
      processArticleDate since url content.headings
        (parse_article_date_from_article content.page) st := rfl

theorem processArticleDate_none_eq (since : PyDate) (url : Str) (hs : List Heading)
    (st : ScrapeState) : processArticleDate since url hs (.ok none) st = .ok st := rfl

theorem processArticleDate_some_eq (since : PyDate) (url : Str) (hs : List Heading)
    (d : PyDate) (st : ScrapeState) :
    processArticleDate since url hs (.ok (some d)) st =
      if PyDate.ltb d since then .ok { st with latest_seen := updateLatest st.latest_seen d }
      else
        .ok (processHeadings url d hs
          { st with latest_seen := updateLatest st.latest_seen d }) := rfl

theorem processHeading_skip {url : Str} {d : PyDate} {hd : Heading} {st : ScrapeState}
    (hq : qualifies hd = false) : processHeading url d hd st = st := by
  unfold qualifies at hq
  rw [processHeading_eq]
  cases hp : prefSearch (stripChars hd.text) with
  | none => rfl
  | some grp =>
    rw [hp] at hq
    rw [processHeadingPref_some_eq]
    by_cases hk : stripChars grp ∈ KANTO_PREFS
    · rw [if_pos hk]
      have hempty : clean_image_urls hd.imgs = [] := by
        by_contra hne
        simp [hk, hne] at hq
      rw [if_pos hempty]
    · rw [if_neg hk]

theorem processHeading_emit {url : Str} {d : PyDate} {hd : Heading} {st : ScrapeState}
    {grp : Str} (hp : prefSearch (stripChars hd.text) = some grp)
    (hk : stripChars grp ∈ KANTO_PREFS) (hi : clean_image_urls hd.imgs ≠ []) :
    processHeading url d hd st =
      { results := st.results ++
          [⟨d, url, stripChars hd.text, stripChars grp,
            (clean_image_urls hd.imgs).take 8, (clean_image_urls hd.imgs).length,
            decide ((url, stripChars hd.text) ∈ st.dup_check)⟩],
        latest_seen := st.latest_seen,
        dup_check := (url, stripChars hd.text) :: st.dup_check } := by
  rw [processHeading_eq, hp, processHeadingPref_some_eq, if_pos hk, if_neg hi]

theorem qualifies_true {hd : Heading} (hq : qualifies hd = true) :
    ∃ grp, prefSearch (stripChars hd.text) = some grp ∧ stripChars grp ∈ KANTO_PREFS ∧
      clean_image_urls hd.imgs ≠ [] := by
  unfold qualifies at hq
  cases hp : prefSearch (stripChars hd.text) with
  | none => rw [hp] at hq; exact absurd hq (by simp)
  | some grp =>
    rw [hp] at hq
    simp only [Bool.and_eq_true, decide_eq_true_eq] at hq
    exact ⟨grp, rfl, hq.1, hq.2⟩

theorem prefOf_eq {hd : Heading} {grp : Str}
    (hp : prefSearch (stripChars hd.text) = some grp) : prefOf hd = stripChars grp := by
  unfold prefOf
  rw [hp]

theorem processHeadings_nil (url : Str) (d : PyDate) (st : ScrapeState) :
    processHeadings url d [] st = st := rfl

theorem processHeadings_cons (url : Str) (d : PyDate) (hd : Heading) (hs : List Heading)
    (st : ScrapeState) :
    processHeadings url d (hd :: hs) st = processHeadings url d hs (processHeading url d hd st) :=
  rfl

theorem processHeadings_spec (url : Str) (d : PyDate) :
    ∀ (hs : List Heading) (st : ScrapeState), ∃ Δ : List Record,
      (processHeadings url d hs st).results = st.results ++ Δ ∧
      (processHeadings url d hs st).latest_seen = st.latest_seen ∧
      Δ.map recProj = (hs.filter qualifies).map (emitProj url d) := by
  intro hs
  induction hs with
  | nil => intro st; exact ⟨[], by simp [processHeadings_nil], rfl, by simp⟩
  | cons hd hs ih =>
    intro st
    rw [processHeadings_cons]
    cases hq : qualifies hd with
    | false =>
      rw [processHeading_skip hq]
      obtain ⟨Δ, h1, h2, h3⟩ := ih st
      refine ⟨Δ, h1, h2, ?_⟩
      rw [List.filter_cons, if_neg (by simp [hq])]
      exact h3
    | true =>
      obtain ⟨grp, hp, hk, hi⟩ := qualifies_true hq
      rw [processHeading_emit hp hk hi]
      obtain ⟨Δ, h1, h2, h3⟩ := ih
        { results := st.results ++
            [⟨d, url, stripChars hd.text, stripChars grp,
              (clean_image_urls hd.imgs).take 8, (clean_image_urls hd.imgs).length,
              decide ((url, stripChars hd.text) ∈ st.dup_check)⟩],
          latest_seen := st.latest_seen,
          dup_check := (url, stripChars hd.text) :: st.dup_check }
      refine ⟨⟨d, url, stripChars hd.text, stripChars grp,
        (clean_image_urls hd.imgs).take 8, (clean_image_urls hd.imgs).length,
        decide ((url, stripChars hd.text) ∈ st.dup_check)⟩ :: Δ, ?_, ?_, ?_⟩
      · rw [h1]
        simp [List.append_assoc]
      · rw [h2]
      · rw [List.filter_cons, if_pos (by simp [hq])]
        simp only [List.map_cons]
        rw [h3]
        congr 1
        simp [recProj, emitProj, prefOf_eq hp]

theorem processHeadings_latest (url : Str) (d : PyDate) (hs : List Heading) (st : ScrapeState) :
    (processHeadings url d hs st).latest_seen = st.latest_seen :=
  (processHeadings_spec url d hs st).choose_spec.2.1

/-- C3 (amended): for every in-window article, the records appended by the
    heading loop correspond one-to-one, in order, to the headings that
    carry a whitelisted bracketed region code AND whose cleaned section
    image list is non-empty; a qualifying heading with an empty cleaned
    image list is skipped and produces no Record. -/
theorem record_per_qualifying_heading (since : PyDate) (url : Str) (content : ArticleContent)
    (st : ScrapeState) (d : PyDate)
    (h1 : parse_article_date_from_article content.page = .ok (some d))
    (h2 : PyDate.ltb d since = false) :
    ∃ st' Δ, processArticle since url (.ok content) st = .ok st' ∧
      st'.results = st.results ++ Δ ∧
      Δ.map recProj = (content.headings.filter qualifies).map (emitProj url d) := by
  rw [processArticle_ok_eq, h1, processArticleDate_some_eq,
    if_neg (by rw [h2]; exact Bool.false_ne_true)]
  obtain ⟨Δ, hr, _, hm⟩ := processHeadings_spec url d content.headings
    { st with latest_seen := updateLatest st.latest_seen d }
  exact ⟨_, Δ, rfl, hr, hm⟩

/-- C3 witness: the amended statement applied to a concrete in-window
    article with one qualifying heading. -/
theorem record_per_qualifying_heading_witness :
    ∃ st' Δ, processArticle cSince "u1".toList (.ok goodContent) initState = .ok st' ∧
      st'.results = initState.results ++ Δ ∧
      Δ.map recProj =
        (goodContent.headings.filter qualifies).map (emitProj "u1".toList ⟨2024, 3, 10⟩) :=
  record_per_qualifying_heading cSince "u1".toList goodContent initState ⟨2024, 3, 10⟩ rfl rfl

/-- C3 counterexample: an in-window article with an h2/h4 heading whose
    text carries the whitelisted region code 東京 but whose section has no
    images produces NO Record at all - the run returns an empty record
    list, not exactly one Record for the (article, region-heading) pair. -/
theorem empty_section_no_record :
    prefSearch (stripChars "（東京）B".toList) = some "東京".toList ∧
      "東京".toList ∈ KANTO_PREFS ∧
      scrape_kanto_top8 cSince [("u3".toList, .ok noImgContent)] =
        .ok ([], some ⟨2024, 3, 10⟩) :=
  ⟨rfl, by decide, rfl⟩

/-- C1 counterexample: a navigation failure on the second article
    propagates out of the loop and aborts the run with the raised error -
    the record already extracted from the first article is NOT returned,
    although the same first article alone yields it. -/
theorem fetch_failure_aborts_run :
    scrape_kanto_top8 cSince
        [("u1".toList, .ok goodContent), ("u2".toList, .failure "net::ERR_CONNECTION")] =
      .error "net::ERR_CONNECTION" ∧
      scrape_kanto_top8 cSince [("u1".toList, .ok goodContent)] =
        .ok ([demoRecord], some ⟨2024, 3, 10⟩) :=
  ⟨rfl, rfl⟩

/-- C1 (amended): a PARSE failure (article whose date cannot be parsed) on
    one article does not abort the run - the run over any url sequence
    containing such an article equals the run with that article removed,
    so every other article's records are still produced; a fetch
    (navigation) failure, by contrast, propagates and aborts the run. -/
theorem parse_failure_isolated (since : PyDate) (pre post : List (Str × FetchResult))
    (url : Str) (content : ArticleContent) (st : ScrapeState)
    (h : parse_article_date_from_article content.page = .ok none) :
    scrape_loop since (pre ++ (url, .ok content) :: post) st =
      scrape_loop since (pre ++ post) st := by
  induction pre generalizing st with
  | nil =>
    simp only [List.nil_append]
    have hpa : processArticle since url (.ok content) st = .ok st := by
      rw [processArticle_ok_eq, h, processArticleDate_none_eq]
    rw [scrape_loop, hpa]
  | cons p pre ih =>
    obtain ⟨purl, pfr⟩ := p
    simp only [List.cons_append]
    rw [scrape_loop, scrape_loop]
    cases hpa : processArticle since purl pfr st with
    | error e => rfl
    | ok st1 => exact ih st1

/-- C1 witness: removing a concrete date-less article from a concrete run
    leaves the run's outcome unchanged. -/
theorem parse_failure_isolated_witness :
    scrape_loop cSince
        ([("u1".toList, .ok goodContent)] ++ ("u9".toList, .ok noDateContent) :: []) initState =
      scrape_loop cSince ([("u1".toList, .ok goodContent)] ++ []) initState :=
  parse_failure_isolated cSince [("u1".toList, .ok goodContent)] [] "u9".toList
    noDateContent initState rfl

/-- C7: whenever a date is parsed for a visited article, `latest_seen`
    becomes `updateLatest` of its current value and that date - even when
    the article is older than the since cutoff; `updateLatest` computes the
    maximum under the date order; and an article whose date cannot be
    parsed leaves the whole state (records and `latest_seen`) unchanged. -/
theorem latest_seen_tracking (since : PyDate) (url : Str) (content : ArticleContent)
    (st : ScrapeState) :
    (∀ d, parse_article_date_from_article content.page = .ok (some d) →
       ∃ st', processArticle since url (.ok content) st = .ok st' ∧
         st'.latest_seen = updateLatest st.latest_seen d) ∧
    (∀ l d, updateLatest (some l) d = some (pyMax l d) ∧ updateLatest none d = some d ∧
       PyDate.ltb (pyMax l d) l = false ∧ PyDate.ltb (pyMax l d) d = false ∧
       (pyMax l d = l ∨ pyMax l d = d)) ∧
    (parse_article_date_from_article content.page = .ok none →
       processArticle since url (.ok content) st = .ok st) := by
  refine ⟨?_, ?_, ?_⟩
  · intro d h
    rw [processArticle_ok_eq, h, processArticleDate_some_eq]
    by_cases hlt : PyDate.ltb d since = true
    · rw [if_pos hlt]
      exact ⟨_, rfl, rfl⟩
    · rw [if_neg hlt]
      exact ⟨_, rfl, processHeadings_latest url d content.headings _⟩
  · intro l d
    refine ⟨?_, rfl, (pyMax_spec l d).1, (pyMax_spec l d).2.1, (pyMax_spec l d).2.2⟩
    cases h : PyDate.ltb l d <;> simp [updateLatest, pyMax, h]
  · intro h
    rw [processArticle_ok_eq, h, processArticleDate_none_eq]

/-- C7 witness: a concrete article older than the cutoff still moves
    `latest_seen` to its date. -/
theorem latest_seen_tracking_witness :
    ∃ st', processArticle cSince "u7".toList (.ok oldContent) initState = .ok st' ∧
      st'.latest_seen = updateLatest initState.latest_seen ⟨2023, 1, 5⟩ :=
  (latest_seen_tracking cSince "u7".toList oldContent initState).1 ⟨2023, 1, 5⟩ rfl

/-- C8: the since cutoff is inclusive - an article whose parsed date
    equals the cutoff exactly runs the heading loop (record extraction),
    and only an article whose date is strictly before the cutoff skips it
    (while still updating `latest_seen`). -/
theorem since_cutoff_inclusive (since d : PyDate) (url : Str) (content : ArticleContent)
    (st : ScrapeState) :
    (parse_article_date_from_article content.page = .ok (some since) →
       processArticle since url (.ok content) st =
         .ok (processHeadings url since content.headings
           { st with latest_seen := updateLatest st.latest_seen since })) ∧
    (parse_article_date_from_article content.page = .ok (some d) →
       PyDate.ltb d since = true →
       processArticle since url (.ok content) st =
         .ok { st with latest_seen := updateLatest st.latest_seen d }) := by
  constructor
  · intro h
    rw [processArticle_ok_eq, h, processArticleDate_some_eq,
      if_neg (by rw [ltb_irrefl]; exact Bool.false_ne_true)]
  · intro h hlt
    rw [processArticle_ok_eq, h, processArticleDate_some_eq, if_pos hlt]

/-- C8 witness: a concrete article dated exactly on the cutoff day is
    processed for record extraction. -/
theorem since_cutoff_inclusive_witness :
    processArticle ⟨2024, 3, 10⟩ "u1".toList (.ok goodContent) initState =
      .ok (processHeadings "u1".toList ⟨2024, 3, 10⟩ goodContent.headings
        { initState with latest_seen := updateLatest initState.latest_seen ⟨2024, 3, 10⟩ }) :=
  (since_cutoff_inclusive ⟨2024, 3, 10⟩ ⟨2024, 3, 10⟩ "u1".toList goodContent initState).1 rfl

/-- C9 witness: the first strategy (attribute dash pattern) applied on a
    concrete page. -/
theorem parse_article_date_priority_witness :
    parse_article_date_from_article c9AttrPage = .ok (some ⟨2024, 5, 6⟩) :=
  (parse_article_date_priority c9AttrPage).1
    { datetimeAttr := some "2024-05-06".toList, innerText := [] }
    "2024-05-06".toList ⟨2024, 5, 6⟩ rfl rfl (by decide) rfl

theorem processHeading_emit2 {url : Str} {d : PyDate} {hd : Heading} {st : ScrapeState}
    {grp : Str} (hp : prefSearch (stripChars hd.text) = some grp)
    (hk : stripChars grp ∈ KANTO_PREFS) (hi : clean_image_urls hd.imgs ≠ []) :
    processHeading url d hd st =
      { results := st.results ++ [emitRecord url d hd grp st],
        latest_seen := st.latest_seen,
        dup_check := (url, stripChars hd.text) :: st.dup_check } :=
  processHeading_emit hp hk hi

theorem OKFrom_append (r : Record) :
    ∀ (l e : List Record), OKFrom e l →
      (r.dup_same_page = true ↔ ∃ p ∈ e ++ l, p.page = r.page ∧ p.title = r.title) →
      OKFrom e (l ++ [r]) := by
  intro l
  induction l with
  | nil =>
    intro e _ hr
    exact ⟨by simpa using hr, trivial⟩
  | cons x xs ih =>
    intro e hok hr
    obtain ⟨hx, hxs⟩ := hok
    refine ⟨hx, ?_⟩
    apply ih (e ++ [x]) hxs
    simpa [List.append_assoc] using hr

theorem OKFrom_decompose :
    ∀ (pre e l : List Record) (r : Record) (post : List Record),
      OKFrom e l → l = pre ++ r :: post →
      (r.dup_same_page = true ↔ ∃ p ∈ e ++ pre, p.page = r.page ∧ p.title = r.title) := by
  intro pre
  induction pre with
  | nil =>
    intro e l r post hok hl
    subst hl
    obtain ⟨hx, _⟩ := hok
    simpa using hx
  | cons x pre ih =>
    intro e l r post hok hl
    subst hl
    obtain ⟨_, hrest⟩ := hok
    have hmain := ih (e ++ [x]) _ r post hrest rfl
    simpa [List.append_assoc] using hmain

theorem processHeading_inv {st : ScrapeState} (url : Str) (d : PyDate) (hd : Heading)
    (h : InvState st) : InvState (processHeading url d hd st) := by
  cases hq : qualifies hd with
  | false => rw [processHeading_skip hq]; exact h
  | true =>
    obtain ⟨grp, hp, hk, hi⟩ := qualifies_true hq
    rw [processHeading_emit2 hp hk hi]
    obtain ⟨hinv, hok⟩ := h
    refine ⟨?_, ?_⟩
    · intro k
      rw [List.mem_cons, hinv k]
      constructor
      · rintro (rfl | ⟨r, hr, he⟩)
        · exact ⟨emitRecord url d hd grp st, List.mem_append_right _ (by simp), rfl⟩
        · exact ⟨r, List.mem_append_left _ hr, he⟩
      · rintro ⟨r, hr, he⟩
        rcases List.mem_append.mp hr with hr' | hr'
        · exact Or.inr ⟨r, hr', he⟩
        · have hre : r = emitRecord url d hd grp st := by simpa using hr'
          subst hre
          exact Or.inl he.symm
    · apply OKFrom_append _ _ _ hok
      have hdup : (emitRecord url d hd grp st).dup_same_page =
          decide ((url, stripChars hd.text) ∈ st.dup_check) := rfl
      rw [hdup, decide_eq_true_eq, hinv (url, stripChars hd.text)]
      simp only [List.nil_append]
      constructor
      · rintro ⟨r, hr, he⟩
        exact ⟨r, hr, congrArg Prod.fst he, congrArg Prod.snd he⟩
      · rintro ⟨p, hpmem, h1, h2⟩
        exact ⟨p, hpmem, by rw [h1, h2]; rfl⟩

theorem processHeadings_inv (url : Str) (d : PyDate) :
    ∀ (hs : List Heading) (st : ScrapeState), InvState st →
      InvState (processHeadings url d hs st) := by
  intro hs
  induction hs with
  | nil => intro st h; exact h
  | cons hd hs ih =>
    intro st h
    rw [processHeadings_cons]
    exact ih _ (processHeading_inv url d hd h)

theorem processArticle_inv {since : PyDate} {url : Str} {fr : FetchResult}
    {st st' : ScrapeState} (h : InvState st)
    (hp : processArticle since url fr st = .ok st') : InvState st' := by
  cases fr with
  | failure e => exact absurd hp (by simp [processArticle])
  | ok content =>
    rw [processArticle_ok_eq] at hp
    cases hd : parse_article_date_from_article content.page with
    | error e =>
      rw [hd] at hp
      exact absurd hp (by simp [processArticleDate])
    | ok od =>
      cases od with
      | none =>
        rw [hd, processArticleDate_none_eq] at hp
        exact (Except.ok.inj hp) ▸ h
      | some d =>
        rw [hd, processArticleDate_some_eq] at hp
        by_cases hlt : PyDate.ltb d since = true
        · rw [if_pos hlt] at hp
          cases Except.ok.inj hp
          exact h
        · rw [if_neg hlt] at hp
          cases Except.ok.inj hp
          exact processHeadings_inv url d content.headings _ h

theorem scrape_loop_inv (since : PyDate) :
    ∀ (articles : List (Str × FetchResult)) (st stf : ScrapeState),
      InvState st → scrape_loop since articles st = .ok stf → InvState stf := by
  intro articles
  induction articles with
  | nil =>
    intro st stf h hp
    rw [scrape_loop] at hp
    exact (Except.ok.inj hp) ▸ h
  | cons a rest ih =>
    obtain ⟨url, fr⟩ := a
    intro st stf h hp
    rw [scrape_loop] at hp
    cases hpa : processArticle since url fr st with
    | error e => rw [hpa] at hp; exact absurd hp (by simp)
    | ok st1 =>
      rw [hpa] at hp
      exact ih st1 stf (processArticle_inv h hpa) hp

/-- C5: in the output of a run, a Record's `dup_same_page` is true exactly
    when some earlier Record of the same run shares its (page, title)
    pair; and a qualifying heading always appends its Record, duplicate or
    not (the emission never consults the dedup state). -/
theorem scrape_dup_flag (since : PyDate) (articles : List (Str × FetchResult))
    (rs : List Record) (latest : Option PyDate)
    (h : scrape_kanto_top8 since articles = .ok (rs, latest)) :
    (∀ pre r post, rs = pre ++ r :: post →
       (r.dup_same_page = true ↔ ∃ p ∈ pre, p.page = r.page ∧ p.title = r.title)) ∧
    (∀ url d hd st, qualifies hd = true →
       (processHeading url d hd st).results.length = st.results.length + 1) := by
  constructor
  · intro pre r post hdec
    unfold scrape_kanto_top8 at h
    cases hsl : scrape_loop since articles ⟨[], none, []⟩ with
    | error e => rw [hsl] at h; exact absurd h (by simp)
    | ok stf =>
      rw [hsl] at h
      have hrs : stf.results = rs := congrArg Prod.fst (Except.ok.inj h)
      have hinv : InvState stf :=
        scrape_loop_inv since articles ⟨[], none, []⟩ stf ⟨by simp, trivial⟩ hsl
      have hmain := OKFrom_decompose pre [] stf.results r post hinv.2
        (by rw [hrs]; exact hdec)
      simpa using hmain
  · intro url d hd st hq
    obtain ⟨grp, hp, hk, hi⟩ := qualifies_true hq
    rw [processHeading_emit hp hk hi]
    simp

/-- C5 witness: in a concrete run where the same heading appears twice,
    the second Record is flagged and the flag matches its earlier twin. -/
theorem scrape_dup_flag_witness :
    dupR1.dup_same_page = true ↔ ∃ p ∈ [dupR0], p.page = dupR1.page ∧ p.title = dupR1.title :=
  (scrape_dup_flag cSince [("u5".toList, .ok dupContent)] [dupR0, dupR1]
      (some ⟨2024, 3, 10⟩) rfl).1 [dupR0] dupR1 [] rfl

theorem processHeadings_prov (url : Str) (d : PyDate) :
    ∀ (hs : List Heading) (st : ScrapeState), ProvState st →
      ProvState (processHeadings url d hs st) := by
  intro hs
  induction hs with
  | nil => intro st h; exact h
  | cons hd hs ih =>
    intro st h
    rw [processHeadings_cons]
    apply ih
    cases hq : qualifies hd with
    | false => rw [processHeading_skip hq]; exact h
    | true =>
      obtain ⟨grp, hp, hk, hi⟩ := qualifies_true hq
      rw [processHeading_emit2 hp hk hi]
      intro r hr
      rcases List.mem_append.mp hr with hr' | hr'
      · exact h r hr'
      · have hre : r = emitRecord url d hd grp st := by simpa using hr'
        subst hre
        exact ⟨hd.imgs, rfl, rfl⟩

theorem processArticle_prov {since : PyDate} {url : Str} {fr : FetchResult}
    {st st' : ScrapeState} (h : ProvState st)
    (hp : processArticle since url fr st = .ok st') : ProvState st' := by
  cases fr with
  | failure e => exact absurd hp (by simp [processArticle])
  | ok content =>
    rw [processArticle_ok_eq] at hp
    cases hd : parse_article_date_from_article content.page with
    | error e =>
      rw [hd] at hp
      exact absurd hp (by simp [processArticleDate])
    | ok od =>
      cases od with
      | none =>
        rw [hd, processArticleDate_none_eq] at hp
        exact (Except.ok.inj hp) ▸ h
      | some d =>
        rw [hd, processArticleDate_some_eq] at hp
        by_cases hlt : PyDate.ltb d since = true
        · rw [if_pos hlt] at hp
          cases Except.ok.inj hp
          exact h
        · rw [if_neg hlt] at hp
          cases Except.ok.inj hp
          exact processHeadings_prov url d content.headings _ h

theorem scrape_loop_prov (since : PyDate) :
    ∀ (articles : List (Str × FetchResult)) (st stf : ScrapeState),
      ProvState st → scrape_loop since articles st = .ok stf → ProvState stf := by
  intro articles
  induction articles with
  | nil =>
    intro st stf h hp
    rw [scrape_loop] at hp
    exact (Except.ok.inj hp) ▸ h
  | cons a rest ih =>
    obtain ⟨url, fr⟩ := a
    intro st stf h hp
    rw [scrape_loop] at hp
    cases hpa : processArticle since url fr st with
    | error e => rw [hpa] at hp; exact absurd hp (by simp)
    | ok st1 =>
      rw [hpa] at hp
      exact ih st1 stf (processArticle_prov h hpa) hp

/-- C6: every Record of a run has at most 8 entries in `images_top8`,
    `images_top8` is the first min(8, length) entries of one cleaned image
    list whose length is `images_found`, `images_found` equals the length
    of `images_top8` when no truncation occurred (at most 8 found) and is
    strictly greater otherwise. -/
theorem record_truncation_spec (since : PyDate) (articles : List (Str × FetchResult))
    (rs : List Record) (latest : Option PyDate)
    (h : scrape_kanto_top8 since articles = .ok (rs, latest)) :
    ∀ r ∈ rs, r.images_top8.length ≤ 8 ∧
      (∃ raw, r.images_top8 = (clean_image_urls raw).take 8 ∧
        r.images_found = (clean_image_urls raw).length) ∧
      (r.images_found ≤ 8 → r.images_found = r.images_top8.length) ∧
      (8 < r.images_found →
        r.images_top8.length = 8 ∧ r.images_top8.length < r.images_found) := by
  intro r hr
  unfold scrape_kanto_top8 at h
  cases hsl : scrape_loop since articles ⟨[], none, []⟩ with
  | error e => rw [hsl] at h; exact absurd h (by simp)
  | ok stf =>
    rw [hsl] at h
    have hrs : stf.results = rs := congrArg Prod.fst (Except.ok.inj h)
    have hprov : ProvState stf :=
      scrape_loop_prov since articles ⟨[], none, []⟩ stf
        (fun r hr => absurd hr (by simp)) hsl
    obtain ⟨raw, h1, h2⟩ := hprov r (by rw [hrs]; exact hr)
    refine ⟨?_, ⟨raw, h1, h2⟩, ?_, ?_⟩
    · rw [h1]; exact List.length_take_le _ _
    · intro hle
      rw [h2] at hle
      rw [h1, h2, List.take_of_length_le hle]
    · intro hgt
      rw [h2] at hgt
      rw [h1, h2]
      have hlen : ((clean_image_urls raw).take 8).length = 8 :=
        List.length_take_of_le (by omega)
      exact ⟨hlen, by rw [hlen]; omega⟩

/-- C6 witness: the invariants evaluated on the record of a concrete run. -/
theorem record_truncation_spec_witness :
    demoRecord.images_top8.length ≤ 8 ∧
      (∃ raw, demoRecord.images_top8 = (clean_image_urls raw).take 8 ∧
        demoRecord.images_found = (clean_image_urls raw).length) ∧
      (demoRecord.images_found ≤ 8 →
        demoRecord.images_found = demoRecord.images_top8.length) ∧
      (8 < demoRecord.images_found →
        demoRecord.images_top8.length = 8 ∧
          demoRecord.images_top8.length < demoRecord.images_found) :=
  record_truncation_spec cSince [("u1".toList, .ok goodContent)] [demoRecord]
    (some ⟨2024, 3, 10⟩) rfl demoRecord (by simp)
